import Mathlib

/-!
# Shallow embedding of `src/hldebug-wrapper/src/debug.c` (ptrace back-end)

The definitions follow the `USE_PTRACE` branches of `debug.c` (Linux on i386 and
x86_64).  Conventions used throughout:

* C `int` values (`pid`, `tid`, `status`, return codes) are `Int`.
* Pointers are `Nat` addresses; pointer arithmetic does not wrap (as in the C
  abstract machine).  The address space of the traced process and the address
  space of the debugger itself are two different byte maps `Nat → Nat`.
* The `size` argument of `hl_debug_read` / `hl_debug_write` is a non negative
  `int`, embedded as `Nat`.
* A value of type `long` is kept as its object representation: byte `i` of the
  word, for `i < sizeof(long)`, in native byte order.  The code only moves such
  words around with whole-word loads, stores and `memcpy`.
* Results of native calls (`ptrace`, `pthread_cond_timedwait`, `waitpid`) are
  inputs of the model.
-/

namespace HLDebug

/-! ## Memory accessor -/

/-- Value of `sizeof(long)` on the two targets for which `USE_PTRACE` is defined:
8 on x86_64 (`HL_64`), 4 on i386. -/
def sizeof_long (HL_64 : Bool) : Nat := if HL_64 then 8 else 4

/-- The traced process as seen through `PTRACE_PEEKDATA` / `PTRACE_POKEDATA`:
its bytes, for each address whether a word transfer starting there succeeds, and
how many leading bytes of the word a failing poke starting there has copied when
it fails (the kernel copies the word in increasing addresses and stops at the
first byte it cannot access, so the part of a word that lies before the end of a
mapping is written although the call returns `-1`). -/
structure Tracee where
  mem : Nat → Nat
  peek_ok : Nat → Bool
  poke_ok : Nat → Bool
  poke_copied : Nat → Nat

/-- C `memcpy(dst_mem + dst, src_mem + src, n)`: the destination byte map afterwards. -/
def memcpy (dst_mem : Nat → Nat) (dst : Nat) (src_mem : Nat → Nat) (src n : Nat) : Nat → Nat :=
  fun j => if dst ≤ j ∧ j < dst + n then src_mem (src + (j - dst)) else dst_mem j

/-- The load `*(long*)p`: the bytes of the word stored at `p`. -/
def load_long (m : Nat → Nat) (p : Nat) : Nat → Nat :=
  fun i => m (p + i)

/-- The store `*(long*)p = v`. -/
def store_long (HL_64 : Bool) (m : Nat → Nat) (p : Nat) (v : Nat → Nat) : Nat → Nat :=
  memcpy m p v 0 (sizeof_long HL_64)

/-- Native `ptrace(PTRACE_PEEKDATA, pid, addr, 0)`: the word at `addr`, or `-1`
(every byte `0xFF`) when the transfer fails. -/
def ptrace_peekdata (t : Tracee) (addr : Nat) : Nat → Nat :=
  if t.peek_ok addr then load_long t.mem addr else fun _ => 255

/-- Native `ptrace(PTRACE_POKEDATA, pid, addr, v)`: return code and tracee afterwards.
A successful call stores the whole word and returns 0; a failing call returns `-1`
after it copied the first `poke_copied addr` bytes of the word, fewer than
`sizeof(long)`. -/
def ptrace_pokedata (HL_64 : Bool) (t : Tracee) (addr : Nat) (v : Nat → Nat) : Int × Tracee :=
  if t.poke_ok addr then
    (0, { t with mem := store_long HL_64 t.mem addr v })
  else
    (-1, { t with mem := memcpy t.mem addr v 0 (min (t.poke_copied addr) (sizeof_long HL_64 - 1)) })

/-- The `USE_PTRACE` branch of `hl_debug_read`.  `host` is the memory of the
debugger, `buffer` the destination pointer in it.  Returns the `bool` result and
the memory of the debugger afterwards. -/
def hl_debug_read (HL_64 : Bool) (t : Tracee) (addr : Nat) (host : Nat → Nat) (buffer size : Nat) :
    Bool × (Nat → Nat) :=
  if _h : size = 0 then (true, host)
  else
    let v := ptrace_peekdata t addr
    if sizeof_long HL_64 ≤ size then
      hl_debug_read HL_64 t (addr + sizeof_long HL_64) (store_long HL_64 host buffer v)
        (buffer + sizeof_long HL_64) (size - sizeof_long HL_64)
    else
      (true, memcpy host buffer v 0 size)
termination_by size
decreasing_by
  have hW : 0 < sizeof_long HL_64 := by cases HL_64 <;> decide
  omega

/-- The `USE_PTRACE` branch of `hl_debug_write`.  `host` is the memory of the
debugger, `buffer` the source pointer in it.  Returns the `bool` result and the
traced process afterwards. -/
def hl_debug_write (HL_64 : Bool) (t : Tracee) (addr : Nat) (host : Nat → Nat) (buffer size : Nat) :
    Bool × Tracee :=
  if _h : size = 0 then (true, t)
  else
    let sz := if sizeof_long HL_64 ≤ size then sizeof_long HL_64 else size
    let v0 := load_long host buffer
    let v := if sz ≠ sizeof_long HL_64 then
        memcpy v0 sz (ptrace_peekdata t addr) sz (sizeof_long HL_64 - sz)
      else v0
    if (ptrace_pokedata HL_64 t addr v).1 < 0 then (false, (ptrace_pokedata HL_64 t addr v).2)
    else
      hl_debug_write HL_64 (ptrace_pokedata HL_64 t addr v).2 (addr + sz) host (buffer + sz) (size - sz)
termination_by size
decreasing_by
  have hW : 0 < sizeof_long HL_64 := by cases HL_64 <;> decide
  split <;> omega

/-! ## Event status codes and the context pool -/

def STATUS_TIMEOUT : Int := -1
def STATUS_EXIT : Int := 0
def STATUS_BREAKPOINT : Int := 1
def STATUS_SINGLESTEP : Int := 2
def STATUS_ERROR : Int := 3
def STATUS_HANDLED : Int := 4
def STATUS_STACKOVERFLOW : Int := 5

abbrev PTRACE_MAX_CONTEXTS : Nat := 8

/-- Data fields of `struct ptrace_context`.  The `mutex`, `cond` and `thread`
members are synchronisation handles and carry no data of the model. -/
structure ptrace_context where
  pid : Int
  status : Int
  tid : Int
  has_event : Bool
deriving DecidableEq, Repr

/-- The static array `ptrace_contexts[PTRACE_MAX_CONTEXTS]`. -/
abbrev context_pool : Type := Fin PTRACE_MAX_CONTEXTS → ptrace_context

/-- Initial value of the pool: `= {0}` zeroes every member of every slot. -/
def ptrace_contexts_init : context_pool :=
  fun _ => { pid := 0, status := 0, tid := 0, has_event := false }

/-- The scan `for(int i = 0; i < PTRACE_MAX_CONTEXTS; i++) if( test(ptrace_contexts[i]) ) ...`:
the first index, in increasing order, whose slot passes the test. -/
def first_context (ptrace_contexts : context_pool) (test : ptrace_context → Bool) :
    Option (Fin PTRACE_MAX_CONTEXTS) :=
  (List.finRange PTRACE_MAX_CONTEXTS).find? (fun i => test (ptrace_contexts i))

/-- Function `ptrace_find_context`: the index of the first slot whose `pid` member equals
`pid`, or `none` for `NULL`. -/
def ptrace_find_context (ptrace_contexts : context_pool) (pid : Int) :
    Option (Fin PTRACE_MAX_CONTEXTS) :=
  first_context ptrace_contexts (fun c => decide (c.pid = pid))

/-! ## Monitoring thread -/

/-- Linux `WIFEXITED(status)`: `((status) & 0x7f) == 0`. -/
def WIFEXITED (status : Int) : Bool := decide (status % 128 = 0)

/-- Linux `WIFSTOPPED(status)`: `((status) & 0xff) == 0x7f`. -/
def WIFSTOPPED (status : Int) : Bool := decide (status % 256 = 127)

/-- Linux `WSTOPSIG(status)`: `((status) & 0xff00) >> 8`. -/
def WSTOPSIG (status : Int) : Int := (status / 256) % 256

/-- Linux x86 signal number of `SIGSTOP`. -/
def SIGSTOP : Int := 19

/-- Linux x86 signal number of `SIGTRAP`. -/
def SIGTRAP : Int := 5

/-- One turn of the loop of `ptrace_thread_callback`, from the return of
`waitpid` (its result `thread_id` and the raw `status` it stored) to the
`pthread_cond_signal`: the slot as published. -/
def ptrace_thread_callback_publish (ctx : ptrace_context) (thread_id status : Int) :
    ptrace_context :=
  let ctx1 : ptrace_context :=
    if thread_id = -1 then
      { ctx with status := STATUS_ERROR }
    else
      let ctx0 : ptrace_context := { ctx with tid := thread_id }
      if WIFEXITED status then
        { ctx0 with status := STATUS_EXIT }
      else if WIFSTOPPED status then
        let sig := WSTOPSIG status
        if sig = SIGSTOP ∨ sig = SIGTRAP then
          { ctx0 with status := STATUS_BREAKPOINT }
        else
          { ctx0 with status := STATUS_ERROR }
      else
        { ctx0 with status := STATUS_HANDLED }
  { ctx1 with has_event := true }

/-! ## Attach -/

/-- The `USE_PTRACE` branch of `hl_debug_start`; `attach_rc` is the value returned
by `ptrace(PTRACE_ATTACH,pid,0,0)`.  Returns the `bool` result and the pool
afterwards (the creation of the monitoring thread is outside the model). -/
def hl_debug_start (ptrace_contexts : context_pool) (pid : Int) (attach_rc : Int) :
    Bool × context_pool :=
  let ret : Bool := decide (attach_rc ≥ 0)
  if ret then
    match first_context ptrace_contexts (fun c => decide (c.pid = 0)) with
    | some i =>
      (true, Function.update ptrace_contexts i
        { ptrace_contexts i with pid := pid, status := STATUS_HANDLED, tid := 0 })
    | none => (false, ptrace_contexts)
  else
    (false, ptrace_contexts)

/-! ## Wait -/

/-- Linux value of `ETIMEDOUT`, the value `pthread_cond_timedwait` returns when the
absolute time passes before the condition is signalled. -/
def ETIMEDOUT : Int := 110

/-- What the surroundings do during one call of `hl_debug_wait`. -/
structure wait_env where
  /-- Result `(thread_id, status)` of the `waitpid` that the monitoring thread
  publishes while the caller is blocked on the condition variable; `none` when
  it publishes nothing during that time. -/
  monitor : Option (Int × Int)
  /-- Value returned by `pthread_cond_timedwait`. -/
  timedwait_rc : Int
  /-- Flags register of the stopped thread, below `2 ^ (8 * sizeof(long))`. -/
  eflags : Nat
  /-- Value of `errno` after `ptrace(PTRACE_PEEKUSER, ...)`: `0` when it succeeded. -/
  peekuser_errno : Int
  /-- Value returned by `ptrace(PTRACE_POKEUSER, ...)`: negative when it failed. -/
  pokeuser_rc : Int

/-- What one call of `hl_debug_wait` leaves behind. -/
structure wait_result where
  /-- Returned status. -/
  ret : Int
  /-- Value of `*thread` afterwards. -/
  thread : Int
  /-- The pool afterwards. -/
  contexts : context_pool
  /-- Flags register of the stopped thread afterwards. -/
  eflags : Nat
  /-- Values passed to `ptrace(PTRACE_POKEUSER, ...)`, in order. -/
  pokeuser_calls : List Nat
  /-- Whether the call blocked in `pthread_cond_wait` or `pthread_cond_timedwait`. -/
  cond_waited : Bool
  /-- Whether the call reached `pthread_cond_signal`. -/
  cond_signalled : Bool

/-- Slot seen by the caller when `pthread_cond_wait` / `pthread_cond_timedwait`
returns: the monitoring thread is the only other writer of the slot. -/
def cond_wait_return (env : wait_env) (ctx : ptrace_context) : ptrace_context :=
  match env.monitor with
  | none => ctx
  | some r => ptrace_thread_callback_publish ctx r.1 r.2

/-- Slot seen at `*thread = ctx->tid`: as found when it already had an event,
otherwise as it is when the wait returns. -/
def ctx_after_wait (env : wait_env) (ctx : ptrace_context) : ptrace_context :=
  if ctx.has_event then ctx else cond_wait_return env ctx

/-- The operand `~0x100` converted to `size_t`. -/
def not_0x100 (HL_64 : Bool) : Nat := 2 ^ (8 * sizeof_long HL_64) - 1 - 0x100

/-- Outcome of the block `if(status == STATUS_BREAKPOINT) { ... }` of `hl_debug_wait`. -/
structure singlestep_result where
  status : Int
  ctx : ptrace_context
  eflags : Nat
  pokeuser_calls : List Nat

/-- The block `if(status == STATUS_BREAKPOINT) { ... }` of `hl_debug_wait`: detect and
reset the single-step flag. -/
def detect_singlestep (HL_64 : Bool) (env : wait_env) (ctx : ptrace_context) : singlestep_result :=
  let status := ctx.status
  if status = STATUS_BREAKPOINT then
    let flags := env.eflags
    if env.peekuser_errno ≠ 0 then
      { status := status, ctx := ctx, eflags := env.eflags, pokeuser_calls := [] }
    else if flags &&& 0x100 ≠ 0 then
      let flags := flags &&& not_0x100 HL_64
      if env.pokeuser_rc < 0 then
        { status := status, ctx := ctx, eflags := env.eflags, pokeuser_calls := [flags] }
      else
        { status := STATUS_SINGLESTEP, ctx := { ctx with status := STATUS_SINGLESTEP },
          eflags := flags, pokeuser_calls := [flags] }
    else
      { status := status, ctx := ctx, eflags := env.eflags, pokeuser_calls := [] }
  else
    { status := status, ctx := ctx, eflags := env.eflags, pokeuser_calls := [] }

/-- The `USE_PTRACE` branch of `hl_debug_wait`.  `thread` is the value of `*thread`
before the call. -/
def hl_debug_wait (HL_64 : Bool) (ptrace_contexts : context_pool) (pid thread timeout : Int)
    (env : wait_env) : wait_result :=
  match ptrace_find_context ptrace_contexts pid with
  | none =>
    { ret := STATUS_ERROR, thread := thread, contexts := ptrace_contexts, eflags := env.eflags,
      pokeuser_calls := [], cond_waited := false, cond_signalled := false }
  | some i =>
    let ctx0 := ptrace_contexts i
    let ctx := ctx_after_wait env ctx0
    if ctx0.has_event = false ∧ timeout ≠ 0 ∧ env.timedwait_rc < 0 then
      { ret := STATUS_TIMEOUT, thread := thread, contexts := Function.update ptrace_contexts i ctx,
        eflags := env.eflags, pokeuser_calls := [], cond_waited := true, cond_signalled := false }
    else
      let r := detect_singlestep HL_64 env ctx
      { ret := r.status,
        thread := ctx.tid,
        contexts := Function.update ptrace_contexts i
          (if r.ctx.has_event then { r.ctx with has_event := false } else r.ctx),
        eflags := r.eflags,
        pokeuser_calls := r.pokeuser_calls,
        cond_waited := !ctx0.has_event,
        cond_signalled := r.ctx.has_event }

/-! ## Register accessor -/

/-- Member of `struct user` (or of its `regs` member) whose offset
`get_reg` returns on the ptrace back-end, and the two values that are not an offset. -/
inductive user_offset where
  | u_fpstate
  | rsp | rbp | rip | rax
  | esp | ebp | eip | eax
  | eflags
  /-- Offset `&user->u_debugreg[index]`. -/
  | u_debugreg (index : Int)
  /-- Value `(void*)(-((int_val)&fp->xmm_space[0])-1)`. -/
  | neg_xmm_space
  /-- The value `-1`. -/
  | minus_one
deriving DecidableEq, Repr

/-- The `USE_PTRACE` version of `get_reg`. -/
def get_reg (HL_64 : Bool) (r : Int) : user_offset :=
  if r = -1 then .u_fpstate
  else if HL_64 then
    if r = 0 then .rsp
    else if r = 1 then .rbp
    else if r = 2 then .rip
    else if r = 10 then .rax
    else if r = 11 then .neg_xmm_space
    else if r = 3 then .eflags
    else .u_debugreg (r - 4)
  else
    if r = 0 then .esp
    else if r = 1 then .ebp
    else if r = 2 then .eip
    else if r = 10 then .eax
    else if r = 11 then .minus_one
    else if r = 3 then .eflags
    else .u_debugreg (r - 4)

/-- Register constants of `mdbg.h` that the `MAC_DEBUG` version of `get_reg` names. -/
inductive mdbg_reg where
  | REG_RSP | REG_RBP | REG_RIP | REG_RFLAGS
  | REG_DR0 | REG_DR1 | REG_DR2 | REG_DR3 | REG_DR6 | REG_DR7
  | REG_RAX
deriving DecidableEq, Repr

/-- The `MAC_DEBUG` version of `get_reg`; `none` is the result `-1`. -/
def mac_get_reg (r : Int) : Option mdbg_reg :=
  if r = 0 then some .REG_RSP
  else if r = 1 then some .REG_RBP
  else if r = 2 then some .REG_RIP
  else if r = 3 then some .REG_RFLAGS
  else if r = 4 then some .REG_DR0
  else if r = 5 then some .REG_DR1
  else if r = 6 then some .REG_DR2
  else if r = 7 then some .REG_DR3
  else if r = 8 then some .REG_DR6
  else if r = 9 then some .REG_DR7
  else if r = 10 then some .REG_RAX
  else none

/-- Member of `CONTEXT` / `WOW64_CONTEXT` that `DefineGetReg` returns the address of
(`GET_REG(x)` is `&c->E##x` or `&c->R##x`). -/
inductive context_member where
  | sp | bp | ip | ax
  | Dr0 | Dr1 | Dr2 | Dr3 | Dr6 | Dr7
deriving DecidableEq, Repr

/-- The body of `DefineGetReg`, shared by `GetContextReg` and `GetContextReg32`. -/
def GetContextReg (reg : Int) : context_member :=
  if reg = 0 then .sp
  else if reg = 1 then .bp
  else if reg = 2 then .ip
  else if reg = 4 then .Dr0
  else if reg = 5 then .Dr1
  else if reg = 6 then .Dr2
  else if reg = 7 then .Dr3
  else if reg = 8 then .Dr6
  else if reg = 9 then .Dr7
  else if reg = 10 then .ax
  else .ax

/-- Debug register number that an element of `u_debugreg` stands for: the array
is indexed by the number of the debug register (`u_debugreg[n]` is `DRn`). -/
def debugreg_of_user_offset : user_offset → Option Int
  | .u_debugreg index => some index
  | _ => none

/-- Debug register number of a `mdbg.h` constant. -/
def debugreg_of_mdbg_reg : mdbg_reg → Option Int
  | .REG_DR0 => some 0
  | .REG_DR1 => some 1
  | .REG_DR2 => some 2
  | .REG_DR3 => some 3
  | .REG_DR6 => some 6
  | .REG_DR7 => some 7
  | _ => none

/-- Debug register number of a member of `CONTEXT`. -/
def debugreg_of_context_member : context_member → Option Int
  | .Dr0 => some 0
  | .Dr1 => some 1
  | .Dr2 => some 2
  | .Dr3 => some 3
  | .Dr6 => some 6
  | .Dr7 => some 7
  | _ => none

/-! ## Concrete inputs -/

/-- Byte `i` of `x` in little-endian order, the native byte order of i386 and x86_64. -/
def le_byte (x i : Nat) : Nat := (x / 256 ^ i) % 256

/-- A traced process in which every word transfer succeeds. -/
def tracee_mapped : Tracee :=
  { mem := fun a => a % 251, peek_ok := fun _ => true, poke_ok := fun _ => true,
    poke_copied := fun _ => 0 }

/-- A traced process in which every word transfer fails (nothing is mapped). -/
def tracee_unmapped : Tracee :=
  { mem := fun _ => 0, peek_ok := fun _ => false, poke_ok := fun _ => false,
    poke_copied := fun _ => 0 }

/-- A 64-bit traced process with one mapping, `[4096, 8192)`: an 8-byte transfer
succeeds when the whole word lies in the mapping, and a failing poke copies the
bytes of the word that lie before the end of the mapping. -/
def tracee_page : Tracee :=
  { mem := fun a => a % 251,
    peek_ok := fun a => decide (4096 ≤ a ∧ a + 8 ≤ 8192),
    poke_ok := fun a => decide (4096 ≤ a ∧ a + 8 ≤ 8192),
    poke_copied := fun a => if 4096 ≤ a then 8192 - a else 0 }

/-- Memory of the debugger holding the 4-byte value `0xDEADBEEF` at address 0,
followed by bytes `0x11`. -/
def host_deadbeef : Nat → Nat :=
  fun j => if j < 4 then le_byte 0xDEADBEEF j else 0x11

/-- A pool whose 8 slots are all in use, by pids 100 to 107. -/
def pool_full : context_pool :=
  fun i => { pid := (i.val : Int) + 100, status := STATUS_HANDLED, tid := 0, has_event := false }

/-- The pool after `hl_debug_start(42)` succeeded on the initial pool. -/
def pool_attached_42 : context_pool :=
  (hl_debug_start ptrace_contexts_init 42 0).2

/-- The pool of `pool_attached_42` once the monitoring thread published a stop by
`SIGTRAP` (raw status `0x057f`) of thread 42. -/
def pool_breakpoint_42 : context_pool :=
  Function.update pool_attached_42 0 (ptrace_thread_callback_publish (pool_attached_42 0) 42 0x057f)

/-- The bounded wait elapses: nothing is published and `pthread_cond_timedwait`
returns `ETIMEDOUT`. -/
def env_timed_out : wait_env :=
  { monitor := none, timedwait_rc := ETIMEDOUT, eflags := 0x246, peekuser_errno := 0,
    pokeuser_rc := 0 }

/-- The single-step flag is set (`0x346 = 0x246 | 0x100`) and both register
transfers succeed. -/
def env_trap_flag : wait_env :=
  { monitor := none, timedwait_rc := 0, eflags := 0x346, peekuser_errno := 0, pokeuser_rc := 0 }

/-- The single-step flag is set and `PTRACE_POKEUSER` fails. -/
def env_trap_flag_poke_fails : wait_env :=
  { monitor := none, timedwait_rc := 0, eflags := 0x346, peekuser_errno := 0, pokeuser_rc := -1 }

/-! ## Proofs: memory accessor -/

theorem sizeof_long_pos (HL_64 : Bool) : 0 < sizeof_long HL_64 := by
  cases HL_64 <;> decide

/-- Arithmetic of one whole-word step: the trailing word of `size - W` bytes at
`addr + W` is the trailing word of `size` bytes at `addr`. -/
theorem trailing_word_step (W size : Nat) (hW : 0 < W) (hle : W ≤ size) :
    (size - W) % W = size % W ∧ W + (size - W) / W * W = size / W * W := by
  obtain ⟨m, rfl⟩ : ∃ m, size = W + m := ⟨size - W, by omega⟩
  have e : W + m - W = m := by omega
  rw [e, Nat.add_mod_left, Nat.add_div_left m hW, Nat.succ_mul]
  exact ⟨rfl, by omega⟩

/-- When `n` is not a multiple of `W`, its trailing word starts inside `[0, n)`. -/
theorem trailing_word_lt (W n : Nat) (h : n % W ≠ 0) : n / W * W < n := by
  have e := Nat.div_add_mod n W
  rw [Nat.mul_comm] at e
  omega

theorem hl_debug_read_eq_memcpy (HL_64 : Bool) (t : Tracee) (size : Nat) :
    ∀ (addr : Nat) (host : Nat → Nat) (buffer : Nat),
      (∀ k, k * sizeof_long HL_64 < size → t.peek_ok (addr + k * sizeof_long HL_64) = true) →
      hl_debug_read HL_64 t addr host buffer size = (true, memcpy host buffer t.mem addr size) := by
  induction size using Nat.strong_induction_on with
  | _ size ih =>
    intro addr host buffer hpeek
    have hW := sizeof_long_pos HL_64
    rw [hl_debug_read]
    by_cases h0 : size = 0
    · subst h0
      simp only [dite_true]
      congr 1
      funext j
      have c2 : ¬ (buffer ≤ j ∧ j < buffer + 0) := by omega
      simp only [memcpy, c2, if_false]
    · simp only [h0, dite_false]
      have hp : t.peek_ok addr = true := by
        have h := hpeek 0 (by rw [Nat.zero_mul]; omega)
        rw [Nat.zero_mul, Nat.add_zero] at h
        exact h
      by_cases hle : sizeof_long HL_64 ≤ size
      · simp only [hle, if_true]
        rw [ih (size - sizeof_long HL_64) (by omega) _ _ _ (by
          intro k hk
          have h := hpeek (k + 1) (by rw [Nat.succ_mul]; omega)
          rw [Nat.succ_mul] at h
          have e : addr + (k * sizeof_long HL_64 + sizeof_long HL_64)
              = addr + sizeof_long HL_64 + k * sizeof_long HL_64 := by omega
          rw [e] at h
          exact h)]
        congr 1
        funext j
        simp only [memcpy, store_long, ptrace_peekdata, hp, if_true, load_long]
        by_cases c1 : buffer + sizeof_long HL_64 ≤ j ∧
            j < buffer + sizeof_long HL_64 + (size - sizeof_long HL_64)
        · have c2 : buffer ≤ j ∧ j < buffer + size := by omega
          simp only [c1, c2, and_self, if_true]
          congr 1
          omega
        · simp only [c1, if_false]
          by_cases c3 : buffer ≤ j ∧ j < buffer + sizeof_long HL_64
          · have c2 : buffer ≤ j ∧ j < buffer + size := by omega
            simp only [c3, c2, and_self, if_true]
            congr 1
            omega
          · have c2 : ¬ (buffer ≤ j ∧ j < buffer + size) := by omega
            simp only [c3, c2, if_false]
      · simp only [hle, if_false]
        congr 1
        funext j
        simp only [memcpy, ptrace_peekdata, hp, if_true, load_long]
        by_cases c2 : buffer ≤ j ∧ j < buffer + size
        · simp only [c2, and_self, if_true]
          congr 1
          omega
        · simp only [c2, if_false]

theorem ptrace_pokedata_peek_ok (HL_64 : Bool) (t : Tracee) (addr : Nat) (v : Nat → Nat) :
    (ptrace_pokedata HL_64 t addr v).2.peek_ok = t.peek_ok := by
  unfold ptrace_pokedata
  split <;> rfl

theorem ptrace_pokedata_poke_ok (HL_64 : Bool) (t : Tracee) (addr : Nat) (v : Nat → Nat) :
    (ptrace_pokedata HL_64 t addr v).2.poke_ok = t.poke_ok := by
  unfold ptrace_pokedata
  split <;> rfl

theorem ptrace_pokedata_success (HL_64 : Bool) (t : Tracee) (addr : Nat) (v : Nat → Nat)
    (h : t.poke_ok addr = true) :
    (ptrace_pokedata HL_64 t addr v).1 = 0 ∧
      (ptrace_pokedata HL_64 t addr v).2.mem = store_long HL_64 t.mem addr v := by
  simp [ptrace_pokedata, h]

/-- Whether it succeeds or fails, a poke copies a leading part of the word and
touches nothing else. -/
theorem ptrace_pokedata_mem (HL_64 : Bool) (t : Tracee) (addr : Nat) (v : Nat → Nat) :
    ∃ c, c ≤ sizeof_long HL_64 ∧
      (ptrace_pokedata HL_64 t addr v).2.mem = memcpy t.mem addr v 0 c := by
  unfold ptrace_pokedata
  split
  · exact ⟨sizeof_long HL_64, Nat.le_refl _, rfl⟩
  · exact ⟨min (t.poke_copied addr) (sizeof_long HL_64 - 1), by omega, rfl⟩

/-- A poke of the word at 8188, which straddles the end of the mapping at 8192:
the call fails after it stored the 4 bytes that lie in the mapping. -/
theorem ptrace_pokedata_straddling :
    (ptrace_pokedata true tracee_page 8188 (fun i => 200 + i)).1 = -1 ∧
    (ptrace_pokedata true tracee_page 8188 (fun i => 200 + i)).2.mem 8188 = 200 ∧
    (ptrace_pokedata true tracee_page 8188 (fun i => 200 + i)).2.mem 8191 = 203 ∧
    (ptrace_pokedata true tracee_page 8188 (fun i => 200 + i)).2.mem 8192 = tracee_page.mem 8192 ∧
    (ptrace_pokedata true tracee_page 8188 (fun i => 200 + i)).2.mem 8187
      = tracee_page.mem 8187 := by
  decide

/-- A whole-word turn of the loop of `hl_debug_write`. -/
theorem hl_debug_write_whole_word (HL_64 : Bool) (t : Tracee) (addr : Nat) (host : Nat → Nat)
    (buffer size : Nat) (hle : sizeof_long HL_64 ≤ size) :
    hl_debug_write HL_64 t addr host buffer size =
      if (ptrace_pokedata HL_64 t addr (load_long host buffer)).1 < 0 then
        (false, (ptrace_pokedata HL_64 t addr (load_long host buffer)).2)
      else
        hl_debug_write HL_64 (ptrace_pokedata HL_64 t addr (load_long host buffer)).2
          (addr + sizeof_long HL_64) host (buffer + sizeof_long HL_64)
          (size - sizeof_long HL_64) := by
  have hW := sizeof_long_pos HL_64
  have h0 : ¬ size = 0 := by omega
  rw [hl_debug_write]
  simp only [h0, dite_false, hle, if_true, ne_eq, not_true_eq_false, if_false]

/-- The last turn of the loop of `hl_debug_write`, on a trailing word of `size`
bytes, `0 < size < sizeof(long)`. -/
theorem hl_debug_write_trailing_word (HL_64 : Bool) (t : Tracee) (addr : Nat) (host : Nat → Nat)
    (buffer size : Nat) (h0 : size ≠ 0) (hlt : size < sizeof_long HL_64) :
    hl_debug_write HL_64 t addr host buffer size =
      if (ptrace_pokedata HL_64 t addr (memcpy (load_long host buffer) size
          (ptrace_peekdata t addr) size (sizeof_long HL_64 - size))).1 < 0 then
        (false, (ptrace_pokedata HL_64 t addr (memcpy (load_long host buffer) size
          (ptrace_peekdata t addr) size (sizeof_long HL_64 - size))).2)
      else
        (true, (ptrace_pokedata HL_64 t addr (memcpy (load_long host buffer) size
          (ptrace_peekdata t addr) size (sizeof_long HL_64 - size))).2) := by
  have hle : ¬ sizeof_long HL_64 ≤ size := by omega
  have hne : ¬ size = sizeof_long HL_64 := by omega
  rw [hl_debug_write]
  simp only [h0, dite_false, hle, if_false, ne_eq, hne, not_false_eq_true, if_true, Nat.sub_self]
  split
  · rfl
  · rw [hl_debug_write]
    simp only [dite_true]

/-- Bytes of the word poked for a trailing word: the first `size` bytes come from
the buffer, the others from the word peeked at `addr`. -/
theorem trailing_word_bytes (HL_64 : Bool) (t : Tracee) (addr : Nat) (host : Nat → Nat)
    (buffer size : Nat) (hp : t.peek_ok addr = true) (i : Nat) (hi : i < sizeof_long HL_64) :
    memcpy (load_long host buffer) size (ptrace_peekdata t addr) size
        (sizeof_long HL_64 - size) i
      = if i < size then host (buffer + i) else t.mem (addr + i) := by
  simp only [memcpy, ptrace_peekdata, hp, if_true, load_long]
  by_cases c : i < size
  · have c2 : ¬ (size ≤ i ∧ i < size + (sizeof_long HL_64 - size)) := by omega
    rw [if_neg c2, if_pos c]
  · have c2 : size ≤ i ∧ i < size + (sizeof_long HL_64 - size) := by omega
    rw [if_pos c2, if_neg c]
    congr 1
    omega

/-- Frame property of `hl_debug_write`: when the peek of the trailing word (if
there is one) succeeds, no byte of the tracee outside `[addr, addr + size)`
changes, whatever the pokes do. -/
theorem hl_debug_write_outside (HL_64 : Bool) (host : Nat → Nat) (size : Nat) :
    ∀ (t : Tracee) (addr buffer : Nat),
      (size % sizeof_long HL_64 ≠ 0 →
        t.peek_ok (addr + size / sizeof_long HL_64 * sizeof_long HL_64) = true) →
      ∀ a, ¬ (addr ≤ a ∧ a < addr + size) →
        (hl_debug_write HL_64 t addr host buffer size).2.mem a = t.mem a := by
  induction size using Nat.strong_induction_on with
  | _ size ih =>
    intro t addr buffer hpeek a ha
    have hW := sizeof_long_pos HL_64
    by_cases h0 : size = 0
    · rw [hl_debug_write]
      simp only [h0, dite_true]
    · by_cases hle : sizeof_long HL_64 ≤ size
      · rw [hl_debug_write_whole_word HL_64 t addr host buffer size hle]
        obtain ⟨c, hc, hmem⟩ := ptrace_pokedata_mem HL_64 t addr (load_long host buffer)
        have hstep : (ptrace_pokedata HL_64 t addr (load_long host buffer)).2.mem a = t.mem a := by
          have c2 : ¬ (addr ≤ a ∧ a < addr + c) := by omega
          rw [hmem]
          simp only [memcpy, c2, if_false]
        obtain ⟨e1, e2⟩ := trailing_word_step (sizeof_long HL_64) size hW hle
        split
        · exact hstep
        · rw [ih (size - sizeof_long HL_64) (by omega) _ _ _ (by
            intro hm
            rw [ptrace_pokedata_peek_ok, Nat.add_assoc, e2]
            exact hpeek (by rw [← e1]; exact hm)) a (by omega)]
          exact hstep
      · have hlt : size < sizeof_long HL_64 := by omega
        have hp : t.peek_ok addr = true := by
          have h := hpeek (by rw [Nat.mod_eq_of_lt hlt]; exact h0)
          rw [Nat.div_eq_of_lt hlt, Nat.zero_mul, Nat.add_zero] at h
          exact h
        rw [hl_debug_write_trailing_word HL_64 t addr host buffer size h0 hlt]
        obtain ⟨c, hc, hmem⟩ := ptrace_pokedata_mem HL_64 t addr
          (memcpy (load_long host buffer) size (ptrace_peekdata t addr) size
            (sizeof_long HL_64 - size))
        have hstep : (ptrace_pokedata HL_64 t addr (memcpy (load_long host buffer) size
            (ptrace_peekdata t addr) size (sizeof_long HL_64 - size))).2.mem a = t.mem a := by
          rw [hmem]
          simp only [memcpy]
          by_cases c2 : addr ≤ a ∧ a < addr + c
          · rw [if_pos c2, Nat.zero_add]
            have hb := trailing_word_bytes HL_64 t addr host buffer size hp (a - addr) (by omega)
            simp only [memcpy] at hb
            rw [hb]
            have c3 : ¬ (a - addr < size) := by omega
            rw [if_neg c3]
            congr 1
            omega
          · rw [if_neg c2]
        split <;> exact hstep

/-- Effect of `hl_debug_write` when every native transfer it starts succeeds: it
returns `true` and the tracee holds the `size` bytes of the buffer at `addr`. -/
theorem hl_debug_write_success (HL_64 : Bool) (host : Nat → Nat) (size : Nat) :
    ∀ (t : Tracee) (addr buffer : Nat),
      (size % sizeof_long HL_64 ≠ 0 →
        t.peek_ok (addr + size / sizeof_long HL_64 * sizeof_long HL_64) = true) →
      (∀ k, k * sizeof_long HL_64 < size → t.poke_ok (addr + k * sizeof_long HL_64) = true) →
      (hl_debug_write HL_64 t addr host buffer size).1 = true ∧
      (hl_debug_write HL_64 t addr host buffer size).2.peek_ok = t.peek_ok ∧
      (hl_debug_write HL_64 t addr host buffer size).2.poke_ok = t.poke_ok ∧
      ∀ a, (hl_debug_write HL_64 t addr host buffer size).2.mem a
        = memcpy t.mem addr host buffer size a := by
  induction size using Nat.strong_induction_on with
  | _ size ih =>
    intro t addr buffer hpeek hpoke
    have hW := sizeof_long_pos HL_64
    by_cases h0 : size = 0
    · rw [hl_debug_write]
      simp only [h0, dite_true, true_and]
      intro a
      have c2 : ¬ (addr ≤ a ∧ a < addr + 0) := by omega
      simp only [memcpy, c2, if_false]
    · have hpk : t.poke_ok addr = true := by
        have h := hpoke 0 (by rw [Nat.zero_mul]; omega)
        rw [Nat.zero_mul, Nat.add_zero] at h
        exact h
      by_cases hle : sizeof_long HL_64 ≤ size
      · rw [hl_debug_write_whole_word HL_64 t addr host buffer size hle]
        obtain ⟨hrc, hmem⟩ := ptrace_pokedata_success HL_64 t addr (load_long host buffer) hpk
        obtain ⟨e1, e2⟩ := trailing_word_step (sizeof_long HL_64) size hW hle
        simp only [hrc, lt_self_iff_false, if_false]
        obtain ⟨r1, r2, r3, r4⟩ := ih (size - sizeof_long HL_64) (by omega)
          (ptrace_pokedata HL_64 t addr (load_long host buffer)).2
          (addr + sizeof_long HL_64) (buffer + sizeof_long HL_64)
          (by
            intro hm
            rw [ptrace_pokedata_peek_ok, Nat.add_assoc, e2]
            exact hpeek (by rw [← e1]; exact hm))
          (by
            intro k hk
            rw [ptrace_pokedata_poke_ok]
            have h := hpoke (k + 1) (by rw [Nat.succ_mul]; omega)
            rw [Nat.succ_mul] at h
            have e : addr + (k * sizeof_long HL_64 + sizeof_long HL_64)
                = addr + sizeof_long HL_64 + k * sizeof_long HL_64 := by omega
            rw [e] at h
            exact h)
        refine ⟨r1, ?_, ?_, ?_⟩
        · rw [r2, ptrace_pokedata_peek_ok]
        · rw [r3, ptrace_pokedata_poke_ok]
        · intro a
          rw [r4, hmem]
          simp only [memcpy, store_long, load_long]
          by_cases c1 : addr + sizeof_long HL_64 ≤ a ∧
              a < addr + sizeof_long HL_64 + (size - sizeof_long HL_64)
          · have c2 : addr ≤ a ∧ a < addr + size := by omega
            rw [if_pos c1, if_pos c2]
            congr 1
            omega
          · rw [if_neg c1]
            by_cases c3 : addr ≤ a ∧ a < addr + sizeof_long HL_64
            · have c2 : addr ≤ a ∧ a < addr + size := by omega
              rw [if_pos c3, if_pos c2, Nat.zero_add]
            · have c2 : ¬ (addr ≤ a ∧ a < addr + size) := by omega
              rw [if_neg c3, if_neg c2]
      · have hlt : size < sizeof_long HL_64 := by omega
        have hp : t.peek_ok addr = true := by
          have h := hpeek (by rw [Nat.mod_eq_of_lt hlt]; exact h0)
          rw [Nat.div_eq_of_lt hlt, Nat.zero_mul, Nat.add_zero] at h
          exact h
        rw [hl_debug_write_trailing_word HL_64 t addr host buffer size h0 hlt]
        obtain ⟨hrc, hmem⟩ := ptrace_pokedata_success HL_64 t addr
          (memcpy (load_long host buffer) size (ptrace_peekdata t addr) size
            (sizeof_long HL_64 - size)) hpk
        simp only [hrc, lt_self_iff_false, if_false, true_and]
        refine ⟨ptrace_pokedata_peek_ok _ _ _ _, ptrace_pokedata_poke_ok _ _ _ _, ?_⟩
        intro a
        rw [hmem]
        simp only [store_long]
        by_cases c3 : addr ≤ a ∧ a < addr + sizeof_long HL_64
        · have hb := trailing_word_bytes HL_64 t addr host buffer size hp (a - addr) (by omega)
          have e : memcpy t.mem addr (memcpy (load_long host buffer) size
              (ptrace_peekdata t addr) size (sizeof_long HL_64 - size)) 0 (sizeof_long HL_64) a
              = memcpy (load_long host buffer) size (ptrace_peekdata t addr) size
                (sizeof_long HL_64 - size) (a - addr) := by
            show (if addr ≤ a ∧ a < addr + sizeof_long HL_64 then _ else _) = _
            rw [if_pos c3, Nat.zero_add]
          rw [e, hb]
          by_cases c4 : a - addr < size
          · have c2 : addr ≤ a ∧ a < addr + size := by omega
            rw [if_pos c4]
            show _ = (if addr ≤ a ∧ a < addr + size then _ else _)
            rw [if_pos c2]
          · have c2 : ¬ (addr ≤ a ∧ a < addr + size) := by omega
            rw [if_neg c4]
            show _ = (if addr ≤ a ∧ a < addr + size then _ else _)
            rw [if_neg c2]
            congr 1
            omega
        · have c2 : ¬ (addr ≤ a ∧ a < addr + size) := by omega
          show (if addr ≤ a ∧ a < addr + sizeof_long HL_64 then _ else _)
            = (if addr ≤ a ∧ a < addr + size then _ else _)
          rw [if_neg c3, if_neg c2]

/-! ## Claims on the memory accessor -/

/-- C1: on the ptrace back-end, for every base address, buffer and length `n`
(also when `n` is not a multiple of the word size), `hl_debug_write` leaves every
byte of the traced process outside `[addr, addr + n)` at its value before the call
when its native peek succeeds, that is the peek of the trailing word at
`addr + n / sizeof(long) * sizeof(long)` made when `n` is not a multiple of
`sizeof(long)` (whatever the pokes return); in particular the
`sizeof(long) - n % sizeof(long)` bytes that follow the written range are unchanged. -/
theorem hl_debug_write_frame (HL_64 : Bool) (t : Tracee) (addr : Nat) (host : Nat → Nat)
    (buffer n : Nat)
    (hpeek : n % sizeof_long HL_64 ≠ 0 →
      t.peek_ok (addr + n / sizeof_long HL_64 * sizeof_long HL_64) = true) :
    (∀ a, ¬ (addr ≤ a ∧ a < addr + n) →
        (hl_debug_write HL_64 t addr host buffer n).2.mem a = t.mem a) ∧
    (∀ k, k < sizeof_long HL_64 - n % sizeof_long HL_64 →
        (hl_debug_write HL_64 t addr host buffer n).2.mem (addr + n + k) = t.mem (addr + n + k)) := by
  have h := hl_debug_write_outside HL_64 host n t addr buffer hpeek
  exact ⟨h, fun k _ => h (addr + n + k) (by omega)⟩

/-- Witness of C1, in a 64-bit traced process whose mapping ends at 8192: a
12-byte write at 8176 (one whole word, then 4 bytes of the word at 8184, the one
native peek) leaves the 4 bytes that follow and the byte before unchanged; an
8-byte write at 8184, the last word of the mapping, makes no peek and leaves the
byte before unchanged. -/
theorem hl_debug_write_frame_witness :
    (12 % sizeof_long true ≠ 0 →
      tracee_page.peek_ok (8176 + 12 / sizeof_long true * sizeof_long true) = true) ∧
    (∀ k, k < sizeof_long true - 12 % sizeof_long true →
        (hl_debug_write true tracee_page 8176 host_deadbeef 0 12).2.mem (8176 + 12 + k)
          = tracee_page.mem (8176 + 12 + k)) ∧
    (hl_debug_write true tracee_page 8176 host_deadbeef 0 12).2.mem 8175
      = tracee_page.mem 8175 ∧
    (hl_debug_write true tracee_page 8184 host_deadbeef 0 8).2.mem 8183
      = tracee_page.mem 8183 :=
  ⟨fun _ => by decide,
    (hl_debug_write_frame true tracee_page 8176 host_deadbeef 0 12 (fun _ => by decide)).2,
    (hl_debug_write_frame true tracee_page 8176 host_deadbeef 0 12 (fun _ => by decide)).1 8175
      (by omega),
    (hl_debug_write_frame true tracee_page 8184 host_deadbeef 0 8
      (fun h => absurd (by decide) h)).1 8183 (by omega)⟩

/-- Support for C2: `hl_debug_read` returns `true` on every input, whatever the
peeks do. -/
theorem hl_debug_read_always_true (HL_64 : Bool) (t : Tracee) (size : Nat) :
    ∀ (addr : Nat) (host : Nat → Nat) (buffer : Nat),
      (hl_debug_read HL_64 t addr host buffer size).1 = true := by
  induction size using Nat.strong_induction_on with
  | _ size ih =>
    intro addr host buffer
    have hW := sizeof_long_pos HL_64
    rw [hl_debug_read]
    by_cases h0 : size = 0
    · simp only [h0, dite_true]
    · simp only [h0, dite_false]
      by_cases hle : sizeof_long HL_64 ≤ size
      · simp only [hle, if_true]
        exact ih (size - sizeof_long HL_64) (by omega) _ _ _
      · simp only [hle, if_false]

/-- C2 (the code at the failing input): the peek of the one word of an 8-byte read
at an unmapped address fails, and `hl_debug_read` returns `true` with the buffer
filled from the error value `-1` of the failed call. -/
theorem hl_debug_read_failed_peek_returns_true :
    tracee_unmapped.peek_ok 4096 = false ∧
    (hl_debug_read true tracee_unmapped 4096 host_deadbeef 0 8).1 = true ∧
    (∀ j, j < 8 → (hl_debug_read true tracee_unmapped 4096 host_deadbeef 0 8).2 j = 255) := by
  refine ⟨rfl, hl_debug_read_always_true _ _ _ _ _ _, ?_⟩
  intro j hj
  rw [hl_debug_read]
  simp only [sizeof_long, if_true, Nat.reduceEqDiff, dite_false, le_refl, Nat.sub_self]
  rw [hl_debug_read]
  simp only [dite_true, store_long, memcpy, ptrace_peekdata, tracee_unmapped, sizeof_long,
    if_true, zero_le, true_and, zero_add]
  simp [hj]

/-- C6: on the ptrace back-end, for every base address, length `n` and destination
buffer, when every native peek succeeds (the loop peeks at the addresses
`addr + k * sizeof(long)` with `k * sizeof(long) < n`) `hl_debug_read` returns
`true`, byte `i` of the buffer is byte `addr + i` of the traced process for every
`i < n`, and every other byte of the memory of the debugger (so every buffer byte
of index `>= n`) is unchanged. -/
theorem hl_debug_read_spec (HL_64 : Bool) (t : Tracee) (addr : Nat) (host : Nat → Nat)
    (buffer n : Nat)
    (hpeek : ∀ k, k * sizeof_long HL_64 < n → t.peek_ok (addr + k * sizeof_long HL_64) = true) :
    (hl_debug_read HL_64 t addr host buffer n).1 = true ∧
    (∀ i, i < n → (hl_debug_read HL_64 t addr host buffer n).2 (buffer + i) = t.mem (addr + i)) ∧
    (∀ i, n ≤ i → (hl_debug_read HL_64 t addr host buffer n).2 (buffer + i) = host (buffer + i)) ∧
    (∀ j, j < buffer → (hl_debug_read HL_64 t addr host buffer n).2 j = host j) := by
  rw [hl_debug_read_eq_memcpy HL_64 t n addr host buffer hpeek]
  refine ⟨rfl, ?_, ?_, ?_⟩
  · intro i hi
    have c : buffer ≤ buffer + i ∧ buffer + i < buffer + n := by omega
    simp only [memcpy, c, and_self, if_true]
    congr 1
    omega
  · intro i hi
    have c : ¬ (buffer ≤ buffer + i ∧ buffer + i < buffer + n) := by omega
    simp only [memcpy, c, if_false]
  · intro j hj
    have c : ¬ (buffer ≤ j ∧ j < buffer + n) := by omega
    simp only [memcpy, c, if_false]

/-- Witness of C6, in a 64-bit traced process whose mapping ends at 8192: a
12-byte read at 8176 (one whole word and a 4-byte tail, peeks at 8176 and 8184). -/
theorem hl_debug_read_spec_witness :
    (∀ k, k * sizeof_long true < 12 → tracee_page.peek_ok (8176 + k * sizeof_long true) = true) ∧
    (hl_debug_read true tracee_page 8176 host_deadbeef 0 12).1 = true ∧
    (∀ i, i < 12 →
      (hl_debug_read true tracee_page 8176 host_deadbeef 0 12).2 (0 + i)
        = tracee_page.mem (8176 + i)) ∧
    (∀ i, 12 ≤ i →
      (hl_debug_read true tracee_page 8176 host_deadbeef 0 12).2 (0 + i)
        = host_deadbeef (0 + i)) :=
  have hp : ∀ k, k * sizeof_long true < 12 →
      tracee_page.peek_ok (8176 + k * sizeof_long true) = true := by
    intro k hk
    have hk8 : k * 8 < 12 := hk
    have hk01 : k = 0 ∨ k = 1 := by omega
    rcases hk01 with h | h <;> subst h <;> decide
  ⟨hp,
    (hl_debug_read_spec true tracee_page 8176 host_deadbeef 0 12 hp).1,
    (hl_debug_read_spec true tracee_page 8176 host_deadbeef 0 12 hp).2.1,
    (hl_debug_read_spec true tracee_page 8176 host_deadbeef 0 12 hp).2.2.1⟩

/-- C7: on the ptrace back-end, for every address `A`, length `n` and `n` bytes `b`
(at `buffer` in the memory of the debugger), when all native calls succeed (the
two loops peek and poke at the addresses `A + k * sizeof(long)` with
`k * sizeof(long) < n`), `hl_debug_write(pid, A, b, n)` followed by
`hl_debug_read(pid, A, out, n)` both return `true` and leave `out[i] = b[i]` for
every `i < n`. -/
theorem hl_debug_write_read_roundtrip (HL_64 : Bool) (t : Tracee) (A : Nat) (host : Nat → Nat)
    (buffer out n : Nat)
    (hpeek : ∀ k, k * sizeof_long HL_64 < n → t.peek_ok (A + k * sizeof_long HL_64) = true)
    (hpoke : ∀ k, k * sizeof_long HL_64 < n → t.poke_ok (A + k * sizeof_long HL_64) = true) :
    (hl_debug_write HL_64 t A host buffer n).1 = true ∧
    (hl_debug_read HL_64 (hl_debug_write HL_64 t A host buffer n).2 A host out n).1 = true ∧
    (∀ i, i < n →
      (hl_debug_read HL_64 (hl_debug_write HL_64 t A host buffer n).2 A host out n).2 (out + i)
        = host (buffer + i)) := by
  obtain ⟨w1, w2, _, w4⟩ := hl_debug_write_success HL_64 host n t A buffer
    (fun hm => hpeek (n / sizeof_long HL_64) (trailing_word_lt (sizeof_long HL_64) n hm)) hpoke
  have hpeek2 : ∀ k, k * sizeof_long HL_64 < n →
      (hl_debug_write HL_64 t A host buffer n).2.peek_ok (A + k * sizeof_long HL_64) = true := by
    intro k hk
    rw [w2]
    exact hpeek k hk
  rw [hl_debug_read_eq_memcpy HL_64 (hl_debug_write HL_64 t A host buffer n).2 n A host out hpeek2]
  refine ⟨w1, rfl, ?_⟩
  intro i hi
  have c1 : out ≤ out + i ∧ out + i < out + n := by omega
  have c2 : A ≤ A + (out + i - out) ∧ A + (out + i - out) < A + n := by omega
  simp only [memcpy, c1, and_self, if_true]
  rw [w4]
  simp only [memcpy, c2, and_self, if_true]
  congr 1
  omega

/-- Witness of C7: the 4 bytes of `0xDEADBEEF`, a partial word of a 64-bit host,
written at address 8184 (the last word of the mapping of the traced process) and
read back at `out = 16`, in little-endian order. -/
theorem hl_debug_write_read_roundtrip_witness :
    (∀ k, k * sizeof_long true < 4 → tracee_page.peek_ok (8184 + k * sizeof_long true) = true) ∧
    (∀ k, k * sizeof_long true < 4 → tracee_page.poke_ok (8184 + k * sizeof_long true) = true) ∧
    (∀ i, i < 4 →
      (hl_debug_read true (hl_debug_write true tracee_page 8184 host_deadbeef 0 4).2 8184
        host_deadbeef 16 4).2 (16 + i) = le_byte 0xDEADBEEF i) :=
  have hp : ∀ k, k * sizeof_long true < 4 →
      tracee_page.peek_ok (8184 + k * sizeof_long true) = true := by
    intro k hk
    have hk8 : k * 8 < 4 := hk
    have hk0 : k = 0 := by omega
    subst hk0
    decide
  have hq : ∀ k, k * sizeof_long true < 4 →
      tracee_page.poke_ok (8184 + k * sizeof_long true) = true := by
    intro k hk
    have hk8 : k * 8 < 4 := hk
    have hk0 : k = 0 := by omega
    subst hk0
    decide
  ⟨hp, hq, fun i hi => by
    have h := (hl_debug_write_read_roundtrip true tracee_page 8184 host_deadbeef 0 16 4
      hp hq).2.2 i hi
    rw [h]
    simp [host_deadbeef, hi]⟩

/-! ## Claims on the session monitor and the registry -/

theorem first_context_eq_none (ptrace_contexts : context_pool) (test : ptrace_context → Bool)
    (h : ∀ i, test (ptrace_contexts i) = false) :
    first_context ptrace_contexts test = none := by
  unfold first_context
  rw [List.find?_eq_none]
  intro i _
  simp [h i]

/-- Support for C5: when no slot holds `pid`, `hl_debug_wait` returns `STATUS_ERROR`
without waiting and without changing the pool, `*thread` or the flags register. -/
theorem hl_debug_wait_unknown_pid (HL_64 : Bool) (ptrace_contexts : context_pool)
    (pid thread timeout : Int) (env : wait_env)
    (h : ∀ i, (ptrace_contexts i).pid ≠ pid) :
    (hl_debug_wait HL_64 ptrace_contexts pid thread timeout env).ret = STATUS_ERROR ∧
    (hl_debug_wait HL_64 ptrace_contexts pid thread timeout env).thread = thread ∧
    (hl_debug_wait HL_64 ptrace_contexts pid thread timeout env).contexts = ptrace_contexts ∧
    (hl_debug_wait HL_64 ptrace_contexts pid thread timeout env).cond_waited = false := by
  have hnone : ptrace_find_context ptrace_contexts pid = none :=
    first_context_eq_none _ _ (fun i => by simp [h i])
  simp [hl_debug_wait, hnone]

/-- C8: when all 8 slots of the pool hold a non-zero pid, `hl_debug_start(pid)`
returns `false` for every `pid` and every result of the native attach call, and
the pool (every field of every slot) is unchanged. -/
theorem hl_debug_start_pool_full (ptrace_contexts : context_pool) (pid attach_rc : Int)
    (hfull : ∀ i, (ptrace_contexts i).pid ≠ 0) :
    hl_debug_start ptrace_contexts pid attach_rc = (false, ptrace_contexts) := by
  have hnone : first_context ptrace_contexts (fun c => decide (c.pid = 0)) = none :=
    first_context_eq_none _ _ (fun i => by simp [hfull i])
  unfold hl_debug_start
  simp only [hnone]
  split <;> rfl

/-- Witness of C8: a 9th attach (pid 200, the native attach succeeding) on a pool
used by pids 100 to 107. -/
theorem hl_debug_start_pool_full_witness :
    (∀ i, (pool_full i).pid ≠ 0) ∧ hl_debug_start pool_full 200 0 = (false, pool_full) :=
  ⟨by decide, hl_debug_start_pool_full pool_full 200 0 (by decide)⟩

/-- C10: for every result `(thread_id, status)` of `waitpid`, the monitoring thread
publishes one status and sets `has_event`: when `waitpid` failed (`thread_id = -1`)
the status is `STATUS_ERROR` and `tid` is left alone; when it succeeded `tid` is
`thread_id` and the status is `STATUS_EXIT` for an exit, `STATUS_BREAKPOINT` for a
stop by `SIGSTOP` or `SIGTRAP`, `STATUS_ERROR` for a stop by another signal, and
`STATUS_HANDLED` in every remaining case. -/
theorem ptrace_thread_callback_publish_spec (ctx : ptrace_context) (thread_id status : Int) :
    (ptrace_thread_callback_publish ctx thread_id status).has_event = true ∧
    (ptrace_thread_callback_publish ctx thread_id status).pid = ctx.pid ∧
    (thread_id = -1 →
      (ptrace_thread_callback_publish ctx thread_id status).status = STATUS_ERROR ∧
      (ptrace_thread_callback_publish ctx thread_id status).tid = ctx.tid) ∧
    (thread_id ≠ -1 →
      (ptrace_thread_callback_publish ctx thread_id status).tid = thread_id ∧
      (WIFEXITED status = true →
        (ptrace_thread_callback_publish ctx thread_id status).status = STATUS_EXIT) ∧
      (WIFSTOPPED status = true → (WSTOPSIG status = SIGSTOP ∨ WSTOPSIG status = SIGTRAP) →
        (ptrace_thread_callback_publish ctx thread_id status).status = STATUS_BREAKPOINT) ∧
      (WIFSTOPPED status = true → ¬ (WSTOPSIG status = SIGSTOP ∨ WSTOPSIG status = SIGTRAP) →
        (ptrace_thread_callback_publish ctx thread_id status).status = STATUS_ERROR) ∧
      (WIFEXITED status = false → WIFSTOPPED status = false →
        (ptrace_thread_callback_publish ctx thread_id status).status = STATUS_HANDLED)) := by
  have hexcl : WIFSTOPPED status = true → WIFEXITED status = false := by
    simp only [WIFSTOPPED, WIFEXITED, decide_eq_true_eq, decide_eq_false_iff_not]
    omega
  refine ⟨rfl, ?_, ?_, ?_⟩
  · unfold ptrace_thread_callback_publish
    by_cases h1 : thread_id = -1
    · simp only [h1, if_true]
    · simp only [h1, if_false]
      split
      · rfl
      · split
        · split <;> rfl
        · rfl
  · intro h1
    simp [ptrace_thread_callback_publish, h1]
  · intro h1
    refine ⟨?_, ?_, ?_, ?_, ?_⟩
    · unfold ptrace_thread_callback_publish
      simp only [h1, if_false]
      split
      · rfl
      · split
        · split <;> rfl
        · rfl
    · intro he
      simp [ptrace_thread_callback_publish, h1, he]
    · intro hs hsig
      simp [ptrace_thread_callback_publish, h1, hexcl hs, hs, hsig]
    · intro hs hsig
      simp [ptrace_thread_callback_publish, h1, hexcl hs, hs, hsig]
    · intro he hs
      simp [ptrace_thread_callback_publish, h1, he, hs]

/-- C3 (the code at the failing input): pid 42 is attached, its slot has no pending
event, the bounded wait (1000 ms) elapses and `pthread_cond_timedwait` returns
`ETIMEDOUT`, a positive number.  The test `< 0` does not hold, so `hl_debug_wait`
goes on: it returns the status left in the slot, `STATUS_HANDLED`, instead of
`STATUS_TIMEOUT`, and stores the `tid` of the slot in `*thread` (7 before the call). -/
theorem hl_debug_wait_timed_out_returns_slot_status :
    pool_attached_42 0 = { pid := 42, status := STATUS_HANDLED, tid := 0, has_event := false } ∧
    env_timed_out.timedwait_rc = ETIMEDOUT ∧
    (hl_debug_wait true pool_attached_42 42 7 1000 env_timed_out).cond_waited = true ∧
    (hl_debug_wait true pool_attached_42 42 7 1000 env_timed_out).ret = STATUS_HANDLED ∧
    (hl_debug_wait true pool_attached_42 42 7 1000 env_timed_out).ret ≠ STATUS_TIMEOUT ∧
    (hl_debug_wait true pool_attached_42 42 7 1000 env_timed_out).thread = 0 := by
  decide

/-- Support for C3: `hl_debug_wait` returns `STATUS_TIMEOUT` only when
`pthread_cond_timedwait` returned a negative value, or when the status stored in
the slot is itself `-1`. -/
theorem hl_debug_wait_timeout_only_if_negative (HL_64 : Bool) (ptrace_contexts : context_pool)
    (pid thread timeout : Int) (env : wait_env) (i : Fin PTRACE_MAX_CONTEXTS)
    (hfind : ptrace_find_context ptrace_contexts pid = some i)
    (h : (hl_debug_wait HL_64 ptrace_contexts pid thread timeout env).ret = STATUS_TIMEOUT) :
    ((ptrace_contexts i).has_event = false ∧ timeout ≠ 0 ∧ env.timedwait_rc < 0) ∨
    (ctx_after_wait env (ptrace_contexts i)).status = STATUS_TIMEOUT := by
  by_cases hc : (ptrace_contexts i).has_event = false ∧ timeout ≠ 0 ∧ env.timedwait_rc < 0
  · exact Or.inl hc
  · right
    simp only [hl_debug_wait, hfind, hc, if_false, detect_singlestep] at h
    split at h
    · rename_i hb
      split at h
      · exact h
      · split at h
        · split at h
          · exact h
          · exact absurd h (show ¬ (STATUS_SINGLESTEP = STATUS_TIMEOUT) by decide)
        · exact h
    · exact h

theorem testBit_mask64 (k : Nat) :
    Nat.testBit 18446744073709551359 k = (decide (k < 64) && decide (k ≠ 8)) := by
  by_cases h : k < 64
  · interval_cases k <;> rfl
  · have : (18446744073709551359 : Nat) < 2 ^ k :=
      lt_of_lt_of_le (by norm_num) (Nat.pow_le_pow_right (by norm_num) (not_lt.mp h))
    rw [Nat.testBit_eq_false_of_lt this]
    simp [h]

theorem testBit_mask32 (k : Nat) :
    Nat.testBit 4294967039 k = (decide (k < 32) && decide (k ≠ 8)) := by
  by_cases h : k < 32
  · interval_cases k <;> rfl
  · have : (4294967039 : Nat) < 2 ^ k :=
      lt_of_lt_of_le (by norm_num) (Nat.pow_le_pow_right (by norm_num) (not_lt.mp h))
    rw [Nat.testBit_eq_false_of_lt this]
    simp [h]

/-- The assignment `flags &= ~0x100` clears bit 8 of a word and no other bit. -/
theorem land_not_0x100_testBit (HL_64 : Bool) (f : Nat) (hf : f < 2 ^ (8 * sizeof_long HL_64))
    (k : Nat) : (f &&& not_0x100 HL_64).testBit k = (f.testBit k && decide (k ≠ 8)) := by
  rw [Nat.testBit_land]
  cases HL_64
  · have e : not_0x100 false = 4294967039 := by decide
    rw [e, testBit_mask32]
    by_cases h : k < 32
    · simp [h]
    · have : f < 2 ^ k :=
        lt_of_lt_of_le hf (Nat.pow_le_pow_right (by norm_num) (by simp [sizeof_long]; omega))
      rw [Nat.testBit_eq_false_of_lt this]
      simp
  · have e : not_0x100 true = 18446744073709551359 := by decide
    rw [e, testBit_mask64]
    by_cases h : k < 64
    · simp [h]
    · have : f < 2 ^ k :=
        lt_of_lt_of_le hf (Nat.pow_le_pow_right (by norm_num) (by simp [sizeof_long]; omega))
      rw [Nat.testBit_eq_false_of_lt this]
      simp

/-- C4 as stated fails: the published status is `STATUS_BREAKPOINT`, bit `0x100` of
the flags register (`0x346`) is set, `PTRACE_POKEUSER` fails; `hl_debug_wait`
returns `STATUS_BREAKPOINT`, not `STATUS_SINGLESTEP`, and the register keeps its
value. -/
theorem hl_debug_wait_poke_fails_stays_breakpoint :
    (pool_breakpoint_42 0).status = STATUS_BREAKPOINT ∧
    (pool_breakpoint_42 0).has_event = true ∧
    env_trap_flag_poke_fails.eflags &&& 0x100 ≠ 0 ∧
    (hl_debug_wait true pool_breakpoint_42 42 7 0 env_trap_flag_poke_fails).ret
      = STATUS_BREAKPOINT ∧
    (hl_debug_wait true pool_breakpoint_42 42 7 0 env_trap_flag_poke_fails).ret
      ≠ STATUS_SINGLESTEP ∧
    (hl_debug_wait true pool_breakpoint_42 42 7 0 env_trap_flag_poke_fails).eflags = 0x346 := by
  decide

/-- C4 (amended): for every slot whose published status is `STATUS_BREAKPOINT` and
every value `f` of the flags register: if bit `0x100` of `f` is set and both
`PTRACE_PEEKUSER` and `PTRACE_POKEUSER` succeed, `hl_debug_wait` returns
`STATUS_SINGLESTEP` and the one value written to the register is `f` with only bit
`0x100` cleared; if the bit is set and one of the two native calls fails, it
returns `STATUS_BREAKPOINT` and the register keeps the value `f`; if the bit is not
set, it returns `STATUS_BREAKPOINT` and no write to the register is made. -/
theorem hl_debug_wait_reclassify (HL_64 : Bool) (ptrace_contexts : context_pool)
    (pid thread timeout : Int) (env : wait_env) (i : Fin PTRACE_MAX_CONTEXTS)
    (hfind : ptrace_find_context ptrace_contexts pid = some i)
    (hpub : (ctx_after_wait env (ptrace_contexts i)).status = STATUS_BREAKPOINT)
    (hret : (ptrace_contexts i).has_event = true ∨ timeout = 0 ∨ 0 ≤ env.timedwait_rc)
    (hf : env.eflags < 2 ^ (8 * sizeof_long HL_64)) :
    (env.eflags &&& 0x100 ≠ 0 → env.peekuser_errno = 0 → 0 ≤ env.pokeuser_rc →
      (hl_debug_wait HL_64 ptrace_contexts pid thread timeout env).ret = STATUS_SINGLESTEP ∧
      (hl_debug_wait HL_64 ptrace_contexts pid thread timeout env).pokeuser_calls
        = [(hl_debug_wait HL_64 ptrace_contexts pid thread timeout env).eflags] ∧
      (∀ k, (hl_debug_wait HL_64 ptrace_contexts pid thread timeout env).eflags.testBit k
        = (env.eflags.testBit k && decide (k ≠ 8)))) ∧
    (env.eflags &&& 0x100 ≠ 0 → (env.peekuser_errno ≠ 0 ∨ env.pokeuser_rc < 0) →
      (hl_debug_wait HL_64 ptrace_contexts pid thread timeout env).ret = STATUS_BREAKPOINT ∧
      (hl_debug_wait HL_64 ptrace_contexts pid thread timeout env).eflags = env.eflags) ∧
    (env.eflags &&& 0x100 = 0 →
      (hl_debug_wait HL_64 ptrace_contexts pid thread timeout env).ret = STATUS_BREAKPOINT ∧
      (hl_debug_wait HL_64 ptrace_contexts pid thread timeout env).pokeuser_calls = [] ∧
      (hl_debug_wait HL_64 ptrace_contexts pid thread timeout env).eflags = env.eflags) := by
  have hno : ¬ ((ptrace_contexts i).has_event = false ∧ timeout ≠ 0 ∧ env.timedwait_rc < 0) := by
    rintro ⟨h1, h2, h3⟩
    rcases hret with h | h | h
    · rw [h1] at h
      exact Bool.false_ne_true h
    · exact h2 h
    · omega
  refine ⟨?_, ?_, ?_⟩
  · intro hbit hpeek hpoke
    have hp : ¬ env.pokeuser_rc < 0 := by omega
    simp only [hl_debug_wait, hfind, hno, if_false, detect_singlestep, hpub, if_true, hpeek,
      ne_eq, not_true_eq_false, hbit, not_false_eq_true, hp]
    exact ⟨trivial, trivial, land_not_0x100_testBit HL_64 env.eflags hf⟩
  · intro hbit hfail
    rcases hfail with hpeek | hpoke
    · simp only [hl_debug_wait, hfind, hno, if_false, detect_singlestep, hpub, if_true, hpeek,
        ne_eq, not_false_eq_true, and_self]
    · by_cases hpeek : env.peekuser_errno = 0
      · simp only [hl_debug_wait, hfind, hno, if_false, detect_singlestep, hpub, if_true, hpeek,
          ne_eq, not_true_eq_false, hbit, not_false_eq_true, hpoke, and_self]
      · simp only [hl_debug_wait, hfind, hno, if_false, detect_singlestep, hpub, if_true, hpeek,
          ne_eq, not_false_eq_true, and_self]
  · intro hbit
    by_cases hpeek : env.peekuser_errno = 0
    · simp only [hl_debug_wait, hfind, hno, if_false, detect_singlestep, hpub, if_true, hpeek,
        ne_eq, not_true_eq_false, hbit, and_self]
    · simp only [hl_debug_wait, hfind, hno, if_false, detect_singlestep, hpub, if_true, hpeek,
        ne_eq, not_false_eq_true, and_self]

/-- Witness of C4 (amended): the published stop by `SIGTRAP` of thread 42 with the
single-step flag set (`0x346`) is returned as `STATUS_SINGLESTEP` and `0x246` is
written to the flags register. -/
theorem hl_debug_wait_reclassify_witness :
    ptrace_find_context pool_breakpoint_42 42 = some 0 ∧
    (ctx_after_wait env_trap_flag (pool_breakpoint_42 0)).status = STATUS_BREAKPOINT ∧
    env_trap_flag.eflags < 2 ^ (8 * sizeof_long true) ∧
    (hl_debug_wait true pool_breakpoint_42 42 7 0 env_trap_flag).ret = STATUS_SINGLESTEP ∧
    (hl_debug_wait true pool_breakpoint_42 42 7 0 env_trap_flag).pokeuser_calls = [0x246] :=
  ⟨by decide, by decide, by decide,
    ((hl_debug_wait_reclassify true pool_breakpoint_42 42 7 0 env_trap_flag 0 (by decide)
      (by decide) (Or.inl (by decide)) (by decide)).1 (by decide) (by decide) (by decide)).1,
    by decide⟩

/-- C5 (the code at the failing input): no process is attached (the pool is in its
initial state) and `hl_debug_wait(0, &thread, 1000)` is called.  The lookup returns
slot 0, a free slot, whose `pid` member is 0; the call blocks on the condition
variable of that slot, and when the wait elapses it returns the zeroed status of the
slot, `STATUS_EXIT`, not `STATUS_ERROR`, and stores 0 in `*thread` (7 before).  With
the timeout 0 it blocks in `pthread_cond_wait` on that slot. -/
theorem hl_debug_wait_pid_zero_uses_free_slot :
    ptrace_find_context ptrace_contexts_init 0 = some 0 ∧
    (hl_debug_wait true ptrace_contexts_init 0 7 1000 env_timed_out).cond_waited = true ∧
    (hl_debug_wait true ptrace_contexts_init 0 7 1000 env_timed_out).ret = STATUS_EXIT ∧
    (hl_debug_wait true ptrace_contexts_init 0 7 1000 env_timed_out).ret ≠ STATUS_ERROR ∧
    (hl_debug_wait true ptrace_contexts_init 0 7 1000 env_timed_out).thread = 0 ∧
    (hl_debug_wait true ptrace_contexts_init 0 7 0 env_timed_out).cond_waited = true := by
  decide

/-! ## Claims on the register accessor -/

/-- Support for C9: for the ids 4 to 7 the three lookups select the same debug
register, `DR0` to `DR3`. -/
theorem get_reg_debug_0_to_3 (HL_64 : Bool) (r : Int) (h4 : 4 ≤ r) (h7 : r ≤ 7) :
    debugreg_of_user_offset (get_reg HL_64 r) = some (r - 4) ∧
    (mac_get_reg r).bind debugreg_of_mdbg_reg = some (r - 4) ∧
    debugreg_of_context_member (GetContextReg r) = some (r - 4) := by
  have h : r = 4 ∨ r = 5 ∨ r = 6 ∨ r = 7 := by omega
  rcases h with h | h | h | h <;> subst h <;> cases HL_64 <;> decide

/-- C9 (the code at the failing input): for the ids 8 and 9 the Windows and macOS
lookups select `DR6` and `DR7`, and the ptrace `get_reg` returns the offset of
`u_debugreg[4]` and `u_debugreg[5]` (index `r - 4`), not of `u_debugreg[6]` and
`u_debugreg[7]`. -/
theorem get_reg_dr6_dr7_index :
    get_reg true 8 = user_offset.u_debugreg 4 ∧ get_reg true 9 = user_offset.u_debugreg 5 ∧
    get_reg false 8 = user_offset.u_debugreg 4 ∧ get_reg false 9 = user_offset.u_debugreg 5 ∧
    GetContextReg 8 = context_member.Dr6 ∧ GetContextReg 9 = context_member.Dr7 ∧
    mac_get_reg 8 = some mdbg_reg.REG_DR6 ∧ mac_get_reg 9 = some mdbg_reg.REG_DR7 ∧
    debugreg_of_user_offset (get_reg true 8) ≠ debugreg_of_context_member (GetContextReg 8) ∧
    debugreg_of_user_offset (get_reg true 9) ≠ debugreg_of_context_member (GetContextReg 9) := by
  decide

end HLDebug
